import Mathlib

/-!
Shallow embedding of the consensus core of `artha-blockchain`
(`src/consensus/mod.rs`, `src/consensus/svbft.rs`, `src/types/block.rs`)
and proofs about it.  Machine integers (`u64`, `u32`) are modelled as `Nat`
(they only ever grow by small increments or sums in the embedded code),
timestamps (`DateTime<Utc>`) and `chrono::Duration` as `Int` seconds, and
byte vectors (`Vec<u8>`) as lists of `Fin 256`.
-/

namespace Artha

abbrev Byte := Fin 256
abbrev Bytes := List Byte

def byteOf (n : Nat) : Byte := ⟨n % 256, Nat.mod_lt n (by decide)⟩

/-- Lexicographic `<` of rust `Vec<u8>` (derived `Ord` on slices). -/
def bytesLt : Bytes → Bytes → Bool
  | [], [] => false
  | [], _ :: _ => true
  | _ :: _, [] => false
  | a :: as, b :: bs =>
    if a.val < b.val then true
    else if b.val < a.val then false
    else bytesLt as bs

/-- The lowercase hex digit for a value below 16, as `hex::encode` emits it:
code 48 is the digit zero, code 87 + 10 is the letter a. -/
def hexCharOf (n : Nat) : Char :=
  if n < 10 then Char.ofNat (48 + n) else Char.ofNat (87 + n)

/-- `hex::encode`: two lowercase hex characters per byte. -/
def hexEncode (b : Bytes) : String :=
  String.mk (b.foldr (fun x acc => hexCharOf (x.val / 16) :: hexCharOf (x.val % 16) :: acc) [])

def hexVal (c : Char) : Option Nat :=
  if '0' ≤ c ∧ c ≤ '9' then some (c.toNat - 48)
  else if 'a' ≤ c ∧ c ≤ 'f' then some (c.toNat - 87)
  else if 'A' ≤ c ∧ c ≤ 'F' then some (c.toNat - 55)
  else none

def hexDecodeChars : List Char → Option Bytes
  | [] => some []
  | [_] => none
  | c1 :: c2 :: rest =>
    match hexVal c1, hexVal c2, hexDecodeChars rest with
    | some h, some l, some bs => some (byteOf (h * 16 + l) :: bs)
    | _, _, _ => none

/-- `hex::decode` on a string. -/
def hexDecode (s : String) : Option Bytes := hexDecodeChars s.data

/-- `str::as_bytes` / `String::into_bytes`: the UTF-8 bytes of a string.  The
strings the embedded code converts are ASCII (hex digits, decimal digits and
colons), for which the UTF-8 encoding is one byte per character. -/
def strBytes (s : String) : Bytes := s.data.map (fun c => byteOf c.toNat)

theorem hexEncode_data (b : Bytes) :
    (hexEncode b).data =
      b.foldr (fun x acc => hexCharOf (x.val / 16) :: hexCharOf (x.val % 16) :: acc) [] := rfl

theorem hexEncode_data_length (b : Bytes) : (hexEncode b).data.length = 2 * b.length := by
  rw [hexEncode_data]
  induction b with
  | nil => rfl
  | cons x xs ih => simp [List.foldr, ih]; omega

theorem strBytes_length (s : String) : (strBytes s).length = s.data.length := by
  simp [strBytes]

theorem hexVal_hexCharOf : ∀ n : Nat, n < 16 → hexVal (hexCharOf n) = some n := by decide

theorem hexDecode_hexEncode (b : Bytes) : hexDecode (hexEncode b) = some b := by
  rw [hexDecode, hexEncode_data]
  induction b with
  | nil => rfl
  | cons x xs ih =>
    simp only [List.foldr, hexDecodeChars]
    rw [hexVal_hexCharOf (x.val / 16) (by omega), hexVal_hexCharOf (x.val % 16) (by omega), ih]
    have hx : byteOf (x.val / 16 * 16 + x.val % 16) = x := by
      have h1 : x.val / 16 * 16 + x.val % 16 = x.val := by
        have := Nat.div_add_mod x.val 16
        omega
      simp only [byteOf, h1]
      exact Fin.ext (Nat.mod_eq_of_lt x.isLt)
    simp only [hx]

/-! ## Data model (`src/consensus/mod.rs`, `src/types/block.rs`) -/

inductive EvidenceType where
  | duplicateVote
  | invalidVote
  | invalidProposal
  | invalidCommit
  deriving DecidableEq, Repr

/-- The `{:?}` (Debug) rendering of `EvidenceType`, used in the evidence
signing string. -/
def EvidenceType.debugStr : EvidenceType → String
  | .duplicateVote => "DuplicateVote"
  | .invalidVote => "InvalidVote"
  | .invalidProposal => "InvalidProposal"
  | .invalidCommit => "InvalidCommit"

inductive ConsensusError where
  | invalidValidator (msg : String)
  | invalidVotingPower (msg : String)
  | invalidEvidence (msg : String)
  | roundTimeout (msg : String)
  | invalidBlock (msg : String)
  | networkError (msg : String)
  | stateError (msg : String)
  | invalidVote (msg : String)
  | invalidProposal (msg : String)
  | invalidCommit (msg : String)
  | internalError (msg : String)
  | invalidSignature (msg : String)
  | invalidState (msg : String)
  | invalidTransaction (msg : String)
  | mempoolError (msg : String)
  | securityError (msg : String)
  deriving DecidableEq, Repr

structure Validator where
  address : String
  pub_key : Bytes
  voting_power : Nat
  proposer_priority : Int
  jailed_until : Option Int
  accumulated_slashes : Nat
  last_height : Nat
  last_round : Nat
  deriving DecidableEq, Repr

structure ValidatorSet where
  validators : List Validator
  total_voting_power : Nat
  proposer : Option Validator
  last_height : Nat
  last_round : Nat
  deriving DecidableEq, Repr

structure Vote where
  validator : Bytes
  height : Nat
  round : Nat
  block_hash : Bytes
  timestamp : Int
  signature : Bytes
  deriving DecidableEq, Repr

structure Evidence where
  evidence_type : EvidenceType
  validator : Bytes
  height : Nat
  round : Nat
  timestamp : Int
  signature : Bytes
  deriving DecidableEq, Repr

structure SlashingCondition where
  evidence_type : EvidenceType
  slash_amount : Nat
  jail_duration : Int
  min_evidence_count : Nat
  deriving DecidableEq, Repr

/-- `types::transaction::Transaction` (string-keyed form stored in blocks). -/
structure TypesTransaction where
  id : String
  sender : String
  recipient : String
  amount : Nat
  timestamp : Int
  nonce : Nat
  signature : Option Bytes
  data : Option Bytes
  gas_limit : Nat
  gas_price : Nat
  chain_id : Nat
  version : Nat
  deriving DecidableEq, Repr

/-- `consensus::Transaction` (binary keys, explicit fee). -/
structure Transaction where
  id : Bytes
  sender : Bytes
  receiver : Bytes
  amount : Nat
  fee : Nat
  timestamp : Int
  signature : Bytes
  deriving DecidableEq, Repr

structure BlockHeader where
  version : Nat
  previous_hash : Bytes
  timestamp : Int
  height : Nat
  proposer : Bytes
  transaction_root : Bytes
  state_root : Bytes
  evidence_root : Bytes
  validator_hash : Bytes
  consensus_hash : Bytes
  app_hash : Bytes
  deriving DecidableEq, Repr

structure Block where
  header : BlockHeader
  transactions : List TypesTransaction
  merkle_root : String
  state_root : String
  deriving DecidableEq, Repr

structure Proposal where
  proposer : Bytes
  height : Nat
  round : Nat
  block : Block
  timestamp : Int
  signature : Bytes
  deriving DecidableEq, Repr

structure Commit where
  height : Nat
  round : Nat
  block_hash : Bytes
  votes : List Vote
  timestamp : Int
  signature : Bytes
  deriving DecidableEq, Repr

inductive RoundStep where
  | newHeight
  | newRound
  | propose
  | prevote
  | precommit
  | commit
  deriving DecidableEq, Repr

structure StateNode where
  key : Bytes
  value : Bytes
  version : Nat
  hash : Bytes
  deriving DecidableEq, Repr

/-- `MerkleTree`: the `BTreeMap<Vec<u8>, StateNode>` is modelled as an
association list kept sorted by key in ascending lexicographic order, which
is the iteration order of the rust map. -/
structure MerkleTree where
  nodes : List (Bytes × StateNode)
  root : Bytes
  version : Nat
  deriving DecidableEq, Repr

structure MerkleProof where
  key : Bytes
  value : Bytes
  version : Nat
  siblings : List Bytes
  root : Bytes
  deriving DecidableEq, Repr

structure EvidencePool where
  evidence : List (String × List Evidence)
  pending_evidence : List Evidence
  max_evidence_age : Int
  deriving DecidableEq, Repr

structure RoundState where
  height : Nat
  round : Nat
  step : RoundStep
  start_time : Int
  commit_time : Int
  validators : ValidatorSet
  votes : List (String × Vote)
  proposal : Option Proposal
  last_commit : Option Commit
  timeout_propose : Int
  timeout_prevote : Int
  timeout_precommit : Int
  timeout_commit : Int
  deriving DecidableEq, Repr

structure ConsensusState where
  height : Nat
  round : Nat
  step : RoundStep
  last_committed_height : Nat
  last_committed_round : Nat
  last_committed_hash : Bytes
  validators : ValidatorSet
  evidence : List Evidence
  state_tree : MerkleTree
  deriving DecidableEq, Repr

structure ConsensusConfig where
  max_evidence_age : Int
  min_evidence_count : Nat
  max_block_size : Nat
  max_transactions_per_block : Nat
  deriving DecidableEq, Repr

def ConsensusConfig.default : ConsensusConfig :=
  { max_evidence_age := 24 * 3600
    min_evidence_count := 2
    max_block_size := 1000000
    max_transactions_per_block := 1000 }

inductive ValidatorUpdate where
  | add (pub_key : Bytes) (voting_power : Nat)
  | remove (pub_key : Bytes)
  | updateVotingPower (pub_key : Bytes) (voting_power : Nat)
  deriving DecidableEq, Repr

/-- Modelled from the spec: the external cryptographic and serialization
collaborators of the core (the `sha2` crate SHA-256 digest, `ed25519-dalek`
signature verification over a 64-byte signature that parsed, and the
`serde_json` serialization of a block header used by `Block::hash`) are not
code of this repository; they are kept abstract as an oracle.  `sha256_len`
records the single fact the embedded code relies on: a SHA-256 digest is 32
bytes.  `priorityOf` stands for the `f64` proposer-priority formula of
`update_proposer_priority`/`calculate_validator_performance` (spec section
4.1): IEEE-754 arithmetic has no shallow embedding here and no claim depends
on the numeric value produced, only on the fact that it writes nothing but
`proposer_priority`. -/
structure Oracle where
  sha256 : Bytes → Bytes
  sha256_len : ∀ b, (sha256 b).length = 32
  edVerify : Bytes → String → Bytes → Bool
  serializeHeader : BlockHeader → Bytes
  priorityOf : Validator → Nat → Int

/-- A concrete oracle instance used to evaluate the embedding on closed
inputs: a constant 32-byte digest and a verifier that accepts, which models
runs in which every signature check succeeds. -/
def stubOracle : Oracle :=
  { sha256 := fun _ => List.replicate 32 0
    sha256_len := fun _ => by simp
    edVerify := fun _ _ _ => true
    serializeHeader := fun _ => []
    priorityOf := fun _ _ => 0 }

/-- `u64::to_le_bytes` (the embedded code only feeds the result to SHA-256). -/
def natLE8 (n : Nat) : Bytes :=
  (List.range 8).map (fun i => byteOf (n / 256 ^ i))

/-- `i64::to_le_bytes` of a timestamp, via the two's-complement residue. -/
def intLE8 (t : Int) : Bytes := natLE8 (t % (2 ^ 64)).toNat

/-! ## Merkle state tree (`MerkleTree` impl, `mod.rs` lines 695-841) -/

/-- `MerkleTree::new`. -/
def MerkleTree.new : MerkleTree :=
  { nodes := [], root := List.replicate 32 0, version := 0 }

/-- `BTreeMap::insert`, on the key-sorted association list. -/
def btInsert : List (Bytes × StateNode) → Bytes → StateNode → List (Bytes × StateNode)
  | [], k, n => [(k, n)]
  | (k1, n1) :: rest, k, n =>
    if bytesLt k k1 then (k, n) :: (k1, n1) :: rest
    else if k == k1 then (k, n) :: rest
    else (k1, n1) :: btInsert rest k n

/-- One pairwise-combination level of `recalculate_root`: chunks of two are
hashed together, a lone last element is hashed with itself. -/
def levelUp (O : Oracle) : List Bytes → List Bytes
  | [] => []
  | [a] => [O.sha256 (a ++ a)]
  | a :: b :: rest => O.sha256 (a ++ b) :: levelUp O rest

theorem levelUp_length (O : Oracle) (l : List Bytes) :
    (levelUp O l).length = (l.length + 1) / 2 := by
  induction l using levelUp.induct O with
  | case1 => rfl
  | case2 a => simp [levelUp]
  | case3 a b rest ih => simp [levelUp, ih]; omega

/-- The `while current_level.len() > 1` loop of `recalculate_root`. -/
def reduceRoot (O : Oracle) (l : List Bytes) : Bytes :=
  if _h : l.length ≤ 1 then l.headD []
  else reduceRoot O (levelUp O l)
termination_by l.length
decreasing_by simp [levelUp_length]; omega

/-- `MerkleTree::recalculate_root` (as the root it computes). -/
def recalculateRoot (O : Oracle) (nodes : List (Bytes × StateNode)) : Bytes :=
  if nodes.isEmpty then List.replicate 32 0
  else reduceRoot O (nodes.map (fun n => n.2.hash))

/-- `MerkleTree::update`. -/
def MerkleTree.update (O : Oracle) (t : MerkleTree) (key value : Bytes) : MerkleTree :=
  let version := t.version + 1
  let node_hash := O.sha256 (key ++ value ++ natLE8 version)
  let node : StateNode := { key := key, value := value, version := version, hash := node_hash }
  let nodes := btInsert t.nodes key node
  { nodes := nodes, root := recalculateRoot O nodes, version := version }

/-- `MerkleTree::get`. -/
def MerkleTree.get (t : MerkleTree) (key : Bytes) : Option StateNode :=
  (t.nodes.find? (fun n => n.1 == key)).map (fun n => n.2)

/-- The `while level_size > 1` sibling-collection loop of `create_proof`.
Faithfully to the source, every sibling is read out of the leaf-level list
`sorted_nodes` whatever the current level is, and an out-of-range sibling
index (the duplicated odd tail) contributes nothing. -/
def proofSiblings (hashes : List Bytes) (ix ls : Nat) : List Bytes :=
  if _h : 1 < ls then
    let sib := if ix % 2 == 0 then ix + 1 else ix - 1
    (if sib < ls then [hashes.getD sib []] else []) ++
      proofSiblings hashes (ix / 2) ((ls + 1) / 2)
  else []
termination_by ls
decreasing_by omega

/-- `MerkleTree::create_proof`. -/
def MerkleTree.create_proof (t : MerkleTree) (key : Bytes) :
    Except ConsensusError MerkleProof :=
  match t.get key with
  | none => .error (.stateError "Key not found")
  | some node =>
    let sorted_nodes := t.nodes.map (fun n => n.2)
    match sorted_nodes.findIdx? (fun n => n.key == key) with
    | none => .error (.stateError "Node not found in sorted list")
    | some node_index =>
      .ok { key := key
            value := node.value
            version := node.version
            siblings := proofSiblings (sorted_nodes.map (fun n => n.hash))
              node_index sorted_nodes.length
            root := t.root }

/-- The sibling-combination fold of `verify_proof`: the running hash starts
from the raw proof key, and at every level the proof KEY (not the running
hash) is compared with the sibling to pick the hashing order. -/
def verifyFold (O : Oracle) (key : Bytes) (cur : Bytes) : List Bytes → Bytes
  | [] => cur
  | s :: rest =>
    verifyFold O key (if bytesLt key s then O.sha256 (cur ++ s) else O.sha256 (s ++ cur)) rest

/-- `MerkleTree::verify_proof`. -/
def MerkleTree.verify_proof (O : Oracle) (_t : MerkleTree) (pf : MerkleProof) :
    Except ConsensusError Bool :=
  .ok (verifyFold O pf.key pf.key pf.siblings == pf.root)

/-! ## Mempool (`Mempool` impl, `mod.rs` lines 564-642) -/

structure TransactionWithPriority where
  transaction : Transaction
  priority : Nat
  deriving DecidableEq, Repr

/-- The `BinaryHeap<TransactionWithPriority>` is modelled by its element
multiset (a list).  `Ord` on `TransactionWithPriority` compares only
`priority`, so `BinaryHeap::pop` removes an element of greatest priority;
which element of several equal-priority ones the real heap returns is
unspecified, here the first such element of the list is taken (the claims
below use pairwise distinct priorities). -/
structure Mempool where
  transactions : List TransactionWithPriority
  max_size : Nat
  deriving DecidableEq, Repr

def Mempool.new (max_size : Nat) : Mempool :=
  { transactions := [], max_size := max_size }

def heapMaxPriority (l : List TransactionWithPriority) : Nat :=
  l.foldr (fun t m => max t.priority m) 0

/-- Remove the first element carrying the maximal priority. -/
def heapPopMax : List TransactionWithPriority → List TransactionWithPriority
  | [] => []
  | t :: rest =>
    if t.priority == heapMaxPriority (t :: rest) then rest
    else t :: heapPopMax rest

/-- `Mempool::add_transaction`: when the pool is full, `pop` first (removing
a greatest-priority element), then push the newcomer. -/
def Mempool.add_transaction (m : Mempool) (tx : Transaction) (priority : Nat) : Mempool :=
  let kept :=
    if m.transactions.length ≥ m.max_size then heapPopMax m.transactions
    else m.transactions
  { m with transactions := kept ++ [{ transaction := tx, priority := priority }] }

def Mempool.get_transactions (m : Mempool) : List Transaction :=
  m.transactions.map (fun t => t.transaction)

/-! ## Blocks (`src/types/block.rs`) -/

/-- `BlockHeader::calculate_hash`: SHA-256 of the concatenated encodings of
the header fields. -/
def BlockHeader.calculate_hash (O : Oracle) (h : BlockHeader) : Bytes :=
  O.sha256 (natLE8 h.version ++ h.previous_hash ++ intLE8 h.timestamp ++ natLE8 h.height ++
    h.proposer ++ h.transaction_root ++ h.state_root ++ h.evidence_root ++
    h.validator_hash ++ h.consensus_hash ++ h.app_hash)

/-- `Block::hash`: the lowercase hex string of the SHA-256 digest of the
serde-serialized header. -/
def Block.hash (O : Oracle) (b : Block) : String :=
  hexEncode (O.sha256 (O.serializeHeader b.header))

/-- `impl From<TypesTransaction> for Transaction`: hex strings are decoded
with empty-vector fallbacks, a pub-key that is not exactly 32 decoded bytes
falls back to 32 zero bytes, and the fee is `gas_price * gas_limit` (reduced
mod 2^64 as the `u64` product is). -/
def pkFromHexStr (s : String) : Bytes :=
  let bs := (hexDecode s).getD []
  if bs.length == 32 then bs else List.replicate 32 0

def txFromTypes (t : TypesTransaction) : Transaction :=
  { id := (hexDecode t.id).getD []
    sender := pkFromHexStr t.sender
    receiver := pkFromHexStr t.recipient
    amount := t.amount
    fee := t.gas_price * t.gas_limit % 2 ^ 64
    timestamp := t.timestamp
    signature := t.signature.getD [] }

/-! ## Consensus engine (`ConsensusEngine` impl, `mod.rs` lines 917-1890)

The engine methods below are modelled as pure state transformers: each takes
the guarded regions it reads or writes (`ConsensusState`, `ValidatorSet`,
`RoundState`, `EvidencePool`) and the current time explicitly and returns
the updated regions.  The tokio lock plumbing itself (including the spots
where a handler re-acquires a lock it already holds) is outside a shallow
embedding; the model follows the data flow the code writes out. -/

/-- A rust computation that can `panic!` (here: `Option::unwrap` on `None`). -/
inductive PanicOr (α : Type) where
  | ok : α → PanicOr α
  | panic : PanicOr α
  deriving Repr

/-- The canonical signed string of a vote. -/
def voteMsg (v : Vote) : String :=
  toString v.height ++ ":" ++ toString v.round ++ ":" ++ hexEncode v.block_hash

/-- The canonical signed string `verify_proposal` checks: the block hash hex
string is itself passed through `hex::encode` of its UTF-8 bytes. -/
def proposalMsg (O : Oracle) (p : Proposal) : String :=
  toString p.height ++ ":" ++ toString p.round ++ ":" ++
    hexEncode (strBytes (Block.hash O p.block))

/-- The canonical signed string of a commit vote. -/
def commitMsg (c : Commit) : String :=
  toString c.height ++ ":" ++ hexEncode c.block_hash

/-- The canonical signed string of evidence : `"{evidence_type:?}:{height}"`. -/
def evidenceMsg (e : Evidence) : String :=
  e.evidence_type.debugStr ++ ":" ++ toString e.height

/-- The canonical signed string of a transaction. -/
def transactionMsg (tx : Transaction) : String :=
  hexEncode tx.sender ++ ":" ++ hexEncode tx.receiver ++ ":" ++
    toString tx.amount ++ ":" ++ toString tx.fee

/-- `ConsensusEngine::verify_vote`. -/
def verify_vote (O : Oracle) (vs : ValidatorSet) (vote : Vote) :
    Except ConsensusError Bool :=
  if vote.signature.length ≠ 64 then .error (.invalidSignature "Invalid signature length")
  else if ¬ O.edVerify vote.validator (voteMsg vote) vote.signature then .ok false
  else
    match vs.validators.find? (fun v => v.pub_key == vote.validator) with
    | none => .error (.invalidVote "Validator not found")
    | some v => if v.voting_power == 0 then .ok false else .ok true

/-- The voting-power sum of `has_sufficient_votes` and `verify_commit`: each
vote whose validator is found in the set contributes that validator's power,
votes of unknown validators contribute nothing, and the block hash a vote
carries is never consulted. -/
def sumVotePower (vs : ValidatorSet) (votes : List Vote) : Nat :=
  votes.foldr
    (fun vt acc =>
      match vs.validators.find? (fun v => v.pub_key == vt.validator) with
      | some v => v.voting_power + acc
      | none => acc) 0

/-- `ConsensusEngine::has_sufficient_votes`. -/
def has_sufficient_votes (vs : ValidatorSet) (votes : List Vote) : Bool :=
  sumVotePower vs votes > vs.total_voting_power * 2 / 3

/-- `HashMap::insert` on the vote map keyed by `hex(validator)`. -/
def insertVote : List (String × Vote) → String → Vote → List (String × Vote)
  | [], k, v => [(k, v)]
  | (k1, v1) :: rest, k, v =>
    if k == k1 then (k, v) :: rest else (k1, v1) :: insertVote rest k v

def voteValues (m : List (String × Vote)) : List Vote := m.map (fun e => e.2)

/-- `ConsensusEngine::sign_message`: the source returns a dummy all-zero
64-byte signature. -/
def sign_message : Bytes := List.replicate 64 0

/-- `ConsensusEngine::create_vote`. -/
def create_vote (now : Int) (selfKey : Bytes) (rs : RoundState) (block_hash : Bytes) : Vote :=
  { validator := selfKey
    height := rs.height
    round := rs.round
    block_hash := block_hash
    timestamp := now
    signature := sign_message }

/-- `ConsensusEngine::create_commit` (reads the vote map after the insert). -/
def create_commit (now : Int) (rs : RoundState) (block_hash : Bytes) : Commit :=
  { height := rs.height
    round := rs.round
    block_hash := block_hash
    votes := voteValues rs.votes
    timestamp := now
    signature := sign_message }

/-- `ConsensusEngine::handle_vote`.  Returns the updated round state and the
commit it broadcast, if any; `.panic` is the `round_state.proposal.unwrap()`
on the quorum path when no proposal is stored. -/
def handle_vote (O : Oracle) (now : Int) (vs : ValidatorSet) (rs : RoundState) (vote : Vote) :
    PanicOr (Except ConsensusError (RoundState × Option Commit)) :=
  match verify_vote O vs vote with
  | .error e => .ok (.error e)
  | .ok false => .ok (.error (.invalidVote "Invalid vote"))
  | .ok true =>
    if vote.height ≠ rs.height ∨ vote.round ≠ rs.round then
      .ok (.error (.invalidVote "Wrong height or round"))
    else
      let rs1 : RoundState := { rs with votes := insertVote rs.votes (hexEncode vote.validator) vote }
      if has_sufficient_votes vs (voteValues rs1.votes) then
        match rs1.proposal with
        | none => .panic
        | some p =>
          match hexDecode (Block.hash O p.block) with
          | none => .ok (.error (.invalidState "Invalid block hash"))
          | some bh => .ok (.ok (rs1, some (create_commit now rs1 bh)))
      else .ok (.ok (rs1, none))

/-- `ConsensusEngine::verify_transaction` (the data check always passes). -/
def verify_transaction (O : Oracle) (tx : Transaction) : Except ConsensusError Bool :=
  if tx.signature.length ≠ 64 then .error (.invalidSignature "Invalid signature length")
  else if ¬ O.edVerify tx.sender (transactionMsg tx) tx.signature then .ok false
  else .ok true

/-- `ConsensusEngine::apply_transaction`: a stub that changes nothing and
reports success. -/
def apply_transaction (st : ConsensusState) (_tx : Transaction) : ConsensusState × Bool :=
  (st, true)

/-- The per-transaction verification loop of `verify_block`. -/
def checkBlockTxs (O : Oracle) : List TypesTransaction → Except ConsensusError Bool
  | [] => .ok true
  | t :: rest =>
    match verify_transaction O (txFromTypes t) with
    | .error e => .error e
    | .ok false => .ok false
    | .ok true => checkBlockTxs O rest

/-- The verify-and-apply loop of `verify_state_transitions`; `none` models
the `return Ok(false)` exits. -/
def vstLoop (O : Oracle) (st : ConsensusState) :
    List TypesTransaction → Except ConsensusError (Option ConsensusState)
  | [] => .ok (some st)
  | t :: rest =>
    match verify_transaction O (txFromTypes t) with
    | .error e => .error e
    | .ok false => .ok none
    | .ok true =>
      let (st1, okA) := apply_transaction st (txFromTypes t)
      if okA then vstLoop O st1 rest else .ok none

/-- `ConsensusEngine::verify_state_transitions`. -/
def verify_state_transitions (O : Oracle) (st : ConsensusState) (b : Block) :
    Except ConsensusError Bool :=
  match vstLoop O st b.transactions with
  | .error e => .error e
  | .ok none => .ok false
  | .ok (some st1) => .ok (st1.state_tree.root == b.header.state_root)

/-- `ConsensusEngine::verify_block`.  The second check compares the raw
32-byte header digest `calculate_hash()` with `block.hash().as_bytes()`,
the 64 UTF-8 bytes of the hex string. -/
def verify_block (O : Oracle) (st : ConsensusState) (b : Block) :
    Except ConsensusError Bool :=
  if b.header.height ≠ st.height then .ok false
  else if BlockHeader.calculate_hash O b.header ≠ strBytes (Block.hash O b) then .ok false
  else
    match checkBlockTxs O b.transactions with
    | .error e => .error e
    | .ok false => .ok false
    | .ok true => verify_state_transitions O st b

/-- `ConsensusEngine::verify_proposal`. -/
def verify_proposal (O : Oracle) (st : ConsensusState) (p : Proposal) :
    Except ConsensusError Bool :=
  if p.signature.length ≠ 64 then .error (.invalidSignature "Invalid signature length")
  else if ¬ O.edVerify p.proposer (proposalMsg O p) p.signature then .ok false
  else verify_block O st p.block

/-- `ConsensusEngine::is_validator`. -/
def is_validator (vs : ValidatorSet) (selfKey : Bytes) : Bool :=
  vs.validators.any (fun v => v.pub_key == selfKey)

/-- `ConsensusEngine::handle_proposal`.  Returns the updated round state and
the prevote it broadcast, if any.  Mirrors the source checks in order:
`verify_proposal`, the height/round equality against the round state, and
the comparison of the CACHED proposer against the engine's own key
(`self.validator_key`, not the proposal's sender). -/
def handle_proposal (O : Oracle) (now : Int) (selfKey : Bytes) (st : ConsensusState)
    (vs : ValidatorSet) (rs : RoundState) (p : Proposal) :
    Except ConsensusError (RoundState × Option Vote) :=
  match verify_proposal O st p with
  | .error e => .error e
  | .ok false => .error (.invalidProposal "Invalid proposal")
  | .ok true =>
    if p.height ≠ rs.height ∨ p.round ≠ rs.round then
      .error (.invalidProposal "Wrong height or round")
    else if rs.validators.proposer.map (fun v => v.pub_key) ≠ some selfKey then
      .error (.invalidState "Not the proposer")
    else
      let rs1 : RoundState := { rs with proposal := some p }
      if is_validator vs selfKey then
        .ok (rs1, some (create_vote now selfKey rs1 (strBytes (Block.hash O p.block))))
      else .ok (rs1, none)

/-- The per-vote loop of `verify_commit`: `.ok none` models the
`return Ok(false)` on a signature that parses but does not verify, and
`.ok (some total)` carries the summed voting power. -/
def commitVoteLoop (O : Oracle) (vs : ValidatorSet) (msg : String) :
    List Vote → Except ConsensusError (Option Nat)
  | [] => .ok (some 0)
  | v :: rest =>
    if v.signature.length ≠ 64 then .error (.invalidSignature "Invalid signature length")
    else if ¬ O.edVerify v.validator msg v.signature then .ok none
    else
      match commitVoteLoop O vs msg rest with
      | .error e => .error e
      | .ok none => .ok none
      | .ok (some t) =>
        .ok (some ((match vs.validators.find? (fun w => w.pub_key == v.validator) with
          | some w => w.voting_power
          | none => 0) + t))

/-- `ConsensusEngine::verify_commit`: every vote signature is checked against
`"{height}:{hex(block_hash)}"` and the summed power must exceed one third of
the total. -/
def verify_commit (O : Oracle) (vs : ValidatorSet) (c : Commit) :
    Except ConsensusError Bool :=
  match commitVoteLoop O vs (commitMsg c) c.votes with
  | .error e => .error e
  | .ok none => .ok false
  | .ok (some total) => .ok (decide (total > vs.total_voting_power / 3))

/-- `ConsensusEngine::enter_new_height`. -/
def enter_new_height (now : Int) (st : ConsensusState) (rs : RoundState) :
    ConsensusState × RoundState :=
  let st1 : ConsensusState := { st with height := st.height + 1, round := 0, step := .newHeight }
  (st1, { rs with height := st1.height, start_time := now })

/-- `ConsensusEngine::finalize_block`: bump the height and the
last-committed height/round, run the (no-op) transaction application and
persistence hooks, then `enter_new_height` (which bumps the height again).
`last_committed_hash` is not written anywhere. -/
def finalize_block (now : Int) (st : ConsensusState) (rs : RoundState) (p : Proposal) :
    ConsensusState × RoundState :=
  let st1 : ConsensusState :=
    { st with height := st.height + 1
              last_committed_height := rs.height
              last_committed_round := rs.round }
  let st2 := p.block.transactions.foldl
    (fun s t => (apply_transaction s (txFromTypes t)).1) st1
  enter_new_height now st2 rs

/-- `ConsensusEngine::handle_commit`.  On success returns the updated
consensus and round states and whether `finalize_block` ran (it runs exactly
when a proposal is stored). -/
def handle_commit (O : Oracle) (now : Int) (vs : ValidatorSet) (st : ConsensusState)
    (rs : RoundState) (c : Commit) :
    Except ConsensusError (ConsensusState × RoundState × Bool) :=
  match verify_commit O vs c with
  | .error e => .error e
  | .ok false => .error (.invalidCommit "Invalid commit")
  | .ok true =>
    if c.height ≠ st.height then .error (.invalidCommit "Wrong height")
    else
      let rs1 : RoundState := { rs with last_commit := some c }
      match rs1.proposal with
      | some p => .ok ((finalize_block now st rs1 p).1, (finalize_block now st rs1 p).2, true)
      | none => .ok (st, rs1, false)

/-! ## Evidence, slashing and validator updates -/

/-- Jail check of `verify_evidence`: jailed strictly after the evidence
timestamp means the validator was jailed at the time. -/
def jailedAt (v : Validator) (ts : Int) : Bool :=
  match v.jailed_until with
  | some jt => jt > ts
  | none => false

def evidenceFor (pool : EvidencePool) (validator_id : String) : List Evidence :=
  ((pool.evidence.find? (fun e => e.1 == validator_id)).map (fun e => e.2)).getD []

/-- `ConsensusEngine::verify_evidence`, checks in source order: age, the
validator lookup (an ABSENT validator is an `InvalidState` error, not a
`false`), jailed-at-timestamp, signature length (`InvalidSignature` error)
and verification, and `(type, height)` deduplication. -/
def verify_evidence (O : Oracle) (now : Int) (cfg : ConsensusConfig) (vs : ValidatorSet)
    (pool : EvidencePool) (ev : Evidence) : Except ConsensusError Bool :=
  if now - ev.timestamp > cfg.max_evidence_age then .ok false
  else
    match vs.validators.find? (fun v => v.address == hexEncode ev.validator) with
    | none => .error (.invalidState "Validator not found")
    | some v =>
      if jailedAt v ev.timestamp then .ok false
      else if ev.signature.length ≠ 64 then .error (.invalidSignature "Invalid signature length")
      else if ¬ O.edVerify ev.validator (evidenceMsg ev) ev.signature then .ok false
      else if (evidenceFor pool (hexEncode ev.validator)).any
          (fun e => e.evidence_type == ev.evidence_type && e.height == ev.height) then
        .ok false
      else .ok true

/-- Slash the first validator whose address matches. -/
def slashFirst (now : Int) (c : SlashingCondition) (validator_id : String) :
    List Validator → List Validator
  | [] => []
  | v :: rest =>
    if v.address == validator_id then
      { v with accumulated_slashes := v.accumulated_slashes + 1
               voting_power := v.voting_power - c.slash_amount
               jailed_until := some (now + c.jail_duration) } :: rest
    else v :: slashFirst now c validator_id rest

/-- The default `slashing_conditions` built by `ConsensusEngine::new`. -/
def defaultSlashingConditions : List SlashingCondition :=
  [ { evidence_type := .duplicateVote, slash_amount := 1000
      jail_duration := 24 * 3600, min_evidence_count := 2 },
    { evidence_type := .invalidVote, slash_amount := 5000
      jail_duration := 72 * 3600, min_evidence_count := 1 } ]

/-- `ConsensusEngine::apply_slashing_conditions`: when the evidence's
validator is found and a slashing condition matches the evidence type, the
validator is slashed (`saturating_sub` is `Nat` subtraction) and
`total_voting_power` is recomputed as the sum of the members' powers;
otherwise nothing changes. -/
def apply_slashing_conditions (now : Int) (conds : List SlashingCondition)
    (vs : ValidatorSet) (ev : Evidence) : ValidatorSet :=
  let validator_id := hexEncode ev.validator
  if vs.validators.any (fun v => v.address == validator_id) then
    match conds.find? (fun c => c.evidence_type == ev.evidence_type) with
    | none => vs
    | some c =>
      let validators := slashFirst now c validator_id vs.validators
      { vs with validators := validators
                total_voting_power := (validators.map (fun v => v.voting_power)).sum }
  else vs

/-- Append accepted evidence under the validator id
(`HashMap::entry(..).or_default().push(..)`). -/
def recordEvidence (m : List (String × List Evidence)) (k : String) (ev : Evidence) :
    List (String × List Evidence) :=
  match m with
  | [] => [(k, [ev])]
  | (k1, l1) :: rest =>
    if k == k1 then (k1, l1 ++ [ev]) :: rest else (k1, l1) :: recordEvidence rest k ev

/-- The drained-evidence loop of `process_evidence`: each pending item is
verified against the pool and validator set as mutated so far; a verification
error aborts the loop (the remaining drained items are lost). -/
def processLoop (O : Oracle) (now : Int) (cfg : ConsensusConfig)
    (conds : List SlashingCondition) :
    List Evidence → EvidencePool → ValidatorSet →
      EvidencePool × ValidatorSet × Option ConsensusError
  | [], pool, vs => (pool, vs, none)
  | ev :: rest, pool, vs =>
    match verify_evidence O now cfg vs pool ev with
    | .error e => (pool, vs, some e)
    | .ok false => processLoop O now cfg conds rest pool vs
    | .ok true =>
      let vs1 := apply_slashing_conditions now conds vs ev
      let pool1 := { pool with evidence := recordEvidence pool.evidence (hexEncode ev.validator) ev }
      processLoop O now cfg conds rest pool1 vs1

/-- `ConsensusEngine::process_evidence`: drain `pending_evidence` and run the
verification/slashing loop. -/
def process_evidence (O : Oracle) (now : Int) (cfg : ConsensusConfig)
    (conds : List SlashingCondition) (pool : EvidencePool) (vs : ValidatorSet) :
    EvidencePool × ValidatorSet × Option ConsensusError :=
  processLoop O now cfg conds pool.pending_evidence { pool with pending_evidence := [] } vs

/-- One `ValidatorUpdate` of the `update_validator_set` loop.  `Add` of an
existing `pub_key` is dropped, `Remove` retains only the non-matching
validators, `UpdateVotingPower` updates the first match. -/
def setPowerFirst (pk : Bytes) (vp : Nat) : List Validator → List Validator
  | [] => []
  | v :: rest =>
    if v.pub_key == pk then { v with voting_power := vp } :: rest
    else v :: setPowerFirst pk vp rest

def applyUpdate (lastH lastR : Nat) (vs : ValidatorSet) : ValidatorUpdate → ValidatorSet
  | .add pk vp =>
    if vs.validators.any (fun v => v.pub_key == pk) then vs
    else
      { vs with validators := vs.validators ++
          [{ address := hexEncode pk, pub_key := pk, voting_power := vp
             proposer_priority := 0, jailed_until := none, accumulated_slashes := 0
             last_height := lastH, last_round := lastR }] }
  | .remove pk =>
    { vs with validators := vs.validators.filter (fun v => ¬ v.pub_key == pk) }
  | .updateVotingPower pk vp =>
    { vs with validators := setPowerFirst pk vp vs.validators }

/-- `ConsensusEngine::update_proposer_priority`: errors when the total power
is zero, otherwise rewrites every `proposer_priority` through the oracle's
priority formula and caches the max-priority validator (rust
`Iterator::max_by_key` keeps the LAST of equal maxima). -/
def lastMaxByPriority : List Validator → Option Validator
  | [] => none
  | v :: rest =>
    match lastMaxByPriority rest with
    | none => some v
    | some w => if v.proposer_priority > w.proposer_priority then some v else some w

def update_proposer_priority (O : Oracle) (vs : ValidatorSet) :
    ValidatorSet × Option ConsensusError :=
  if vs.total_voting_power == 0 then (vs, some (.invalidState "No validators in set"))
  else
    let validators := vs.validators.map
      (fun v => { v with proposer_priority := O.priorityOf v vs.total_voting_power })
    ({ vs with validators := validators, proposer := lastMaxByPriority validators }, none)

/-- `ConsensusEngine::update_validator_set`: fold the updates, recompute
`total_voting_power` as the member sum, then update proposer priorities.
The pair carries the mutated set together with the error
`update_proposer_priority` may raise (the mutation has already happened
in place when it does). -/
def update_validator_set (O : Oracle) (vs : ValidatorSet) (updates : List ValidatorUpdate) :
    ValidatorSet × Option ConsensusError :=
  let vs1 := updates.foldl (applyUpdate vs.last_height vs.last_round) vs
  let vs2 := { vs1 with
    total_voting_power := (vs1.validators.map (fun v => v.voting_power)).sum }
  update_proposer_priority O vs2

/-! ## Observations and concrete fixtures -/

/-- Whether a `handle_vote` run ended by broadcasting a commit. -/
def broadcastsCommit : PanicOr (Except ConsensusError (RoundState × Option Commit)) → Bool
  | .ok (.ok (_, some _)) => true
  | _ => false

/-- The voting power collected FOR a given block hash: what the spec counts
toward the commit threshold ("votes for the currently proposed block"). -/
def votePowerFor (vs : ValidatorSet) (votes : List Vote) (h : Bytes) : Nat :=
  sumVotePower vs (votes.filter (fun v => v.block_hash == h))

def pk0 : Bytes := List.replicate 32 0
def pkA : Bytes := List.replicate 32 1
def pkB : Bytes := List.replicate 32 2

/-- The validator record `ValidatorSet::new` builds, with the voting power a
parameter. -/
def mkValidator (pk : Bytes) (power : Nat) : Validator :=
  { address := hexEncode pk, pub_key := pk, voting_power := power, proposer_priority := 0,
    jailed_until := none, accumulated_slashes := 0, last_height := 0, last_round := 0 }

/-- `ValidatorSet::new`: every listed key gets voting power 1. -/
def ValidatorSet.new (pks : List Bytes) : ValidatorSet :=
  let validators := pks.map (fun pk => mkValidator pk 1)
  { validators := validators
    total_voting_power := (validators.map (fun v => v.voting_power)).sum
    proposer := none, last_height := 0, last_round := 0 }

/-- `RoundState::new` (with the clock a parameter). -/
def RoundState.base (now : Int) : RoundState :=
  { height := 0, round := 0, step := .newHeight, start_time := now, commit_time := now,
    validators := { validators := [], total_voting_power := 0, proposer := none,
                    last_height := 0, last_round := 0 },
    votes := [], proposal := none, last_commit := none,
    timeout_propose := 3000, timeout_prevote := 1000, timeout_precommit := 1000,
    timeout_commit := 1000 }

/-- The initial `ConsensusState` of `ConsensusEngine::new`. -/
def initialState (vs : ValidatorSet) : ConsensusState :=
  { height := 0, round := 0, step := .newHeight, last_committed_height := 0,
    last_committed_round := 0, last_committed_hash := List.replicate 32 0,
    validators := vs, evidence := [], state_tree := MerkleTree.new }

/-- A single-validator set of voting power 1 (the single-validator scenario). -/
def vs1 : ValidatorSet :=
  { validators := [mkValidator pk0 1], total_voting_power := 1, proposer := none,
    last_height := 0, last_round := 0 }

/-- A round state at height 1, round 1, with no proposal stored. -/
def rsNoProposal : RoundState := { RoundState.base 0 with height := 1, round := 1 }

/-- A verified vote of the single validator at the matching height/round. -/
def voteSelf : Vote :=
  { validator := pk0, height := 1, round := 1, block_hash := [], timestamp := 0,
    signature := sign_message }

def hdr0 : BlockHeader :=
  { version := 0, previous_hash := [], timestamp := 0, height := 0, proposer := pk0,
    transaction_root := [], state_root := [], evidence_root := [], validator_hash := [],
    consensus_hash := [], app_hash := [] }

def blk0 : Block := { header := hdr0, transactions := [], merkle_root := "", state_root := "" }

/-- A proposal stored at height 1 round 1 whose block hashes (under the stub
oracle) to 32 zero bytes. -/
def prop1 : Proposal :=
  { proposer := pkA, height := 1, round := 1, block := blk0, timestamp := 0,
    signature := sign_message }

/-- Two validators of power 2 each, total 4. -/
def vsAB : ValidatorSet :=
  { validators := [mkValidator pkA 2, mkValidator pkB 2], total_voting_power := 4,
    proposer := none, last_height := 0, last_round := 0 }

/-- A vote by validator A for a hash different from the proposed block hash. -/
def voteA : Vote :=
  { validator := pkA, height := 1, round := 1, block_hash := [1], timestamp := 0,
    signature := sign_message }

/-- A vote by validator B for yet another hash. -/
def voteB : Vote :=
  { validator := pkB, height := 1, round := 1, block_hash := [2], timestamp := 0,
    signature := sign_message }

/-- Round state holding the proposal and the already collected vote of A. -/
def rsC1 : RoundState :=
  { RoundState.base 0 with height := 1, round := 1, proposal := some prop1,
                           votes := [(hexEncode pkA, voteA)] }

def mkTx (n : Nat) : Transaction :=
  { id := [byteOf n], sender := pk0, receiver := pk0, amount := 0, fee := 0,
    timestamp := 0, signature := [] }

/-- A full mempool of capacity 3 holding priorities 10, 20 and 30. -/
def mem3 : Mempool :=
  { transactions := [ { transaction := mkTx 1, priority := 10 },
                      { transaction := mkTx 2, priority := 20 },
                      { transaction := mkTx 3, priority := 30 } ], max_size := 3 }

def vsEmpty : ValidatorSet :=
  { validators := [], total_voting_power := 0, proposer := none,
    last_height := 0, last_round := 0 }

def poolEmpty : EvidencePool :=
  { evidence := [], pending_evidence := [], max_evidence_age := 24 * 3600 }

/-- Fresh evidence whose validator is not in the (empty) validator set. -/
def evOrphan : Evidence :=
  { evidence_type := .duplicateVote, validator := pk0, height := 5, round := 0,
    timestamp := 0, signature := sign_message }

/-- A commit carrying one vote with an empty (malformed) signature. -/
def commitBadSig : Commit :=
  { height := 0, round := 1, block_hash := [],
    votes := [{ validator := pk0, height := 0, round := 1, block_hash := [],
                timestamp := 0, signature := [] }],
    timestamp := 0, signature := sign_message }

end Artha

/-! ## SVBFT variant (`src/consensus/svbft.rs`) -/

namespace Svbft

structure Vote where
  block_hash : String
  validator : String
  deriving DecidableEq, Repr

structure ConsensusState where
  votes : List (String × List Vote)
  finalized_blocks : List String
  deriving DecidableEq, Repr

structure SVBFTConsensus where
  state : ConsensusState
  validators : List String
  threshold : Nat
  deriving DecidableEq, Repr

def SVBFTConsensus.new (validators : List String) (threshold : Nat) : SVBFTConsensus :=
  { state := { votes := [], finalized_blocks := [] }
    validators := validators
    threshold := threshold }

/-- `HashMap::entry(k).or_insert_with(Vec::new)` followed by a push: the list
stored under `k` (empty when absent) grows by `v`. -/
def entryPush (m : List (String × List Vote)) (k : String) (v : Vote) :
    List (String × List Vote) :=
  match m with
  | [] => [(k, [v])]
  | (k1, l1) :: rest =>
    if k == k1 then (k1, l1 ++ [v]) :: rest else (k1, l1) :: entryPush rest k v

def votesFor (m : List (String × List Vote)) (k : String) : List Vote :=
  ((m.find? (fun e => e.1 == k)).map (fun e => e.2)).getD []

/-- `SVBFTConsensus::add_vote`.  No deduplication: every vote is appended,
the count is the raw length, and crossing `threshold` pushes the block hash
onto `finalized_blocks` (once). -/
def SVBFTConsensus.add_vote (c : SVBFTConsensus) (v : Vote) : SVBFTConsensus × Bool :=
  let votes := entryPush c.state.votes v.block_hash v
  let block_votes := votesFor votes v.block_hash
  let vote_count := block_votes.length
  if vote_count ≥ c.threshold ∧ ¬ c.state.finalized_blocks.contains v.block_hash then
    ({ c with state := { votes := votes
                         finalized_blocks := c.state.finalized_blocks ++ [v.block_hash] } },
      true)
  else
    ({ c with state := { votes := votes
                         finalized_blocks := c.state.finalized_blocks } }, false)

/-- `SVBFTConsensus::is_finalized`. -/
def SVBFTConsensus.is_finalized (c : SVBFTConsensus) (block_hash : String) : Bool :=
  c.state.finalized_blocks.any (fun h => h == block_hash)

def SVBFTConsensus.get_vote_count (c : SVBFTConsensus) (block_hash : String) : Nat :=
  (votesFor c.state.votes block_hash).length

/-- Submitting the same vote `k` times in a row. -/
def voteTimes (c : SVBFTConsensus) (v : Vote) : Nat → SVBFTConsensus
  | 0 => c
  | k + 1 => ((voteTimes c v k).add_vote v).1

/-- A concrete instance that has already finalized block "b". -/
def cFinal : SVBFTConsensus :=
  { state := { votes := [], finalized_blocks := ["b"] }, validators := ["v"], threshold := 3 }

end Svbft

namespace Artha

/-! ## Claim theorems -/

/-- C7 (code_bug): a vote that verifies, matches the round state and pushes
the collected voting power past the two-thirds threshold while no proposal
is stored makes `handle_vote` hit `round_state.proposal.as_ref().unwrap()`
on `None`: the handler panics instead of returning a value or an `Invalid*`
error.  Here: one validator of power 1, its own verified vote, quorum
1 > (1*2)/3, and `proposal = None`. -/
theorem handle_vote_panics_without_proposal :
    handle_vote stubOracle 0 vs1 rsNoProposal voteSelf = .panic := rfl

/-- C6 (code_bug): on a full mempool of capacity 3 holding priorities
`[10, 20, 30]`, inserting a transaction of priority 5 evicts the element of
priority 30 — `BinaryHeap::pop` removes the GREATEST element, not the
minimum the comment above it and the spec describe.  The minimum, 10, stays. -/
theorem mempool_add_evicts_max_priority :
    ((mem3.add_transaction (mkTx 4) 5).transactions.map (fun t => t.priority) = [10, 20, 5]) ∧
    (mem3.add_transaction (mkTx 4) 5).transactions.length = 3 := ⟨rfl, rfl⟩

theorem apply_transaction_foldl (l : List TypesTransaction) (st : ConsensusState) :
    l.foldl (fun s t => (apply_transaction s (txFromTypes t)).1) st = st := by
  induction l generalizing st with
  | nil => rfl
  | cons t rest ih => exact ih st

/-- C4 (code_bug): `finalize_block` at engine height `h` leaves the engine
at height `h + 2`, not `h + 1`: it increments the height itself and then
`enter_new_height` increments it again.  `last_committed_height/round` are
taken from the round state as the claim says, but `last_committed_hash` is
never written anywhere: it keeps its previous value instead of the
finalized block's hash. -/
theorem finalize_block_double_increment (now : Int) (st : ConsensusState)
    (rs : RoundState) (p : Proposal) :
    (finalize_block now st rs p).1.height = st.height + 2 ∧
    (finalize_block now st rs p).1.last_committed_hash = st.last_committed_hash ∧
    (finalize_block now st rs p).1.last_committed_height = rs.height ∧
    (finalize_block now st rs p).1.last_committed_round = rs.round := by
  simp [finalize_block, enter_new_height, apply_transaction_foldl]

theorem reduceRoot_single (O : Oracle) (a : Bytes) : reduceRoot O [a] = a := by
  unfold reduceRoot
  simp

theorem proofSiblings_single (hashes : List Bytes) (ix : Nat) :
    proofSiblings hashes ix 1 = [] := by
  unfold proofSiblings
  simp

/-- C2 (code_bug): the Merkle round-trip fails.  For the one-entry tree
built by `update([0], [1])`, `create_proof([0])` succeeds, yet
`verify_proof` returns `Ok(false)`: its fold starts from the raw key bytes
instead of the leaf hash `SHA256(key || value || LE64(version))`, so the
recomputed value has length 1 while the root is a 32-byte digest.  This
holds for every 32-byte hash oracle, the real SHA-256 included. -/
theorem merkle_roundtrip_single_key_fails (O : Oracle) :
    ∃ pf, MerkleTree.create_proof (MerkleTree.update O MerkleTree.new [0] [1]) [0] = .ok pf ∧
      MerkleTree.verify_proof O (MerkleTree.update O MerkleTree.new [0] [1]) pf = .ok false := by
  have htree : MerkleTree.update O MerkleTree.new [0] [1] =
      { nodes := [([0], { key := [0], value := [1], version := 1,
                          hash := O.sha256 ([0] ++ [1] ++ natLE8 1) })],
        root := O.sha256 ([0] ++ [1] ++ natLE8 1),
        version := 1 } := by
    simp [MerkleTree.update, MerkleTree.new, btInsert, recalculateRoot, reduceRoot_single]
  refine ⟨{ key := [0], value := [1], version := 1, siblings := [],
            root := O.sha256 ([0] ++ [1] ++ natLE8 1) }, ?_, ?_⟩
  · rw [htree]
    simp [MerkleTree.create_proof, MerkleTree.get, proofSiblings_single]
  · rw [htree, MerkleTree.verify_proof]
    simp only [verifyFold]
    have hne : ([0] : Bytes) ≠ O.sha256 (0 :: 1 :: natLE8 1) := by
      intro h
      have hlen := congrArg List.length h
      rw [O.sha256_len] at hlen
      simp at hlen
    simp [hne]

/-- C1 (counterexample): with two validators of power 2 (total 4) and the
proposal for a block whose hash is 32 zero bytes, validator A has voted for
hash `[1]` and validator B now votes for hash `[2]`.  NO collected vote is
for the proposed block's hash — the power collected for it is 0, below any
threshold — yet `handle_vote` creates and broadcasts a commit, because
`has_sufficient_votes` sums the power of every collected vote regardless of
the hash it carries (4 > (4*2)/3 = 2). -/
theorem handle_vote_foreign_hash_commit_cex :
    broadcastsCommit (handle_vote stubOracle 0 vsAB rsC1 voteB) = true ∧
    votePowerFor vsAB (voteValues (insertVote rsC1.votes (hexEncode voteB.validator) voteB))
      ((hexDecode (Block.hash stubOracle prop1.block)).getD []) = 0 ∧
    vsAB.total_voting_power * 2 / 3 = 2 := ⟨rfl, rfl, rfl⟩

/-- C1 (corrected): when a proposal is stored, `handle_vote` creates and
broadcasts a commit exactly when the vote verifies, matches the local
height and round, and the summed voting power of ALL collected votes after
the insert — irrespective of which block hash each vote carries — exceeds
two thirds of `total_voting_power`. -/
theorem handle_vote_commit_iff (O : Oracle) (now : Int) (vs : ValidatorSet)
    (rs : RoundState) (vote : Vote) (p : Proposal) (hp : rs.proposal = some p) :
    broadcastsCommit (handle_vote O now vs rs vote) = true ↔
      (verify_vote O vs vote = .ok true ∧ vote.height = rs.height ∧ vote.round = rs.round ∧
       vs.total_voting_power * 2 <
         sumVotePower vs (voteValues (insertVote rs.votes (hexEncode vote.validator) vote)) * 3) := by
  unfold handle_vote
  cases hv : verify_vote O vs vote with
  | error e => simp [broadcastsCommit, hv]
  | ok b =>
    cases b with
    | false => simp [broadcastsCommit, hv]
    | true =>
      simp only []
      by_cases hhr : vote.height ≠ rs.height ∨ vote.round ≠ rs.round
      · rw [if_pos hhr]
        rcases hhr with h | h <;> simp [broadcastsCommit, h]
      · rw [if_neg hhr]
        push_neg at hhr
        obtain ⟨hh, hr⟩ := hhr
        have hprop : ({ rs with
            votes := insertVote rs.votes (hexEncode vote.validator) vote } : RoundState).proposal
            = some p := hp
        by_cases hq : has_sufficient_votes vs
            (voteValues (insertVote rs.votes (hexEncode vote.validator) vote))
        · rw [if_pos hq, hprop]
          have hdec : hexDecode (Block.hash O p.block) =
              some (O.sha256 (O.serializeHeader p.block.header)) := hexDecode_hexEncode _
          have hpow : vs.total_voting_power * 2 <
              sumVotePower vs (voteValues (insertVote rs.votes (hexEncode vote.validator) vote)) * 3 := by
            have := of_decide_eq_true hq
            exact (Nat.div_lt_iff_lt_mul (by omega)).mp this
          simp [broadcastsCommit, hdec, hh, hr, hpow]
        · rw [if_neg hq]
          have hpow : ¬ vs.total_voting_power * 2 <
              sumVotePower vs (voteValues (insertVote rs.votes (hexEncode vote.validator) vote)) * 3 := by
            intro hlt
            exact hq (decide_eq_true ((Nat.div_lt_iff_lt_mul (by omega)).mpr hlt))
          simp [broadcastsCommit, hpow]

/-- C1 (witness): the corrected statement applied at the two-validator
counterexample state, where the hypothesis (a stored proposal) holds. -/
theorem handle_vote_commit_iff_witness :
    rsC1.proposal = some prop1 ∧
    (broadcastsCommit (handle_vote stubOracle 0 vsAB rsC1 voteB) = true ↔
      (verify_vote stubOracle vsAB voteB = .ok true ∧ voteB.height = rsC1.height ∧
       voteB.round = rsC1.round ∧
       vsAB.total_voting_power * 2 <
         sumVotePower vsAB (voteValues (insertVote rsC1.votes (hexEncode voteB.validator) voteB)) * 3)) :=
  ⟨rfl, handle_vote_commit_iff stubOracle 0 vsAB rsC1 voteB prop1 rfl⟩

theorem calculate_hash_ne_hash_bytes (O : Oracle) (b : Block) :
    BlockHeader.calculate_hash O b.header ≠ strBytes (Block.hash O b) := by
  have h1 : (BlockHeader.calculate_hash O b.header).length = 32 := O.sha256_len _
  have h2 : (strBytes (Block.hash O b)).length = 64 := by
    rw [strBytes_length]
    show (hexEncode (O.sha256 (O.serializeHeader b.header))).data.length = 64
    rw [hexEncode_data_length, O.sha256_len]
  intro h
  rw [h, h2] at h1
  omega

theorem verify_block_always_false (O : Oracle) (st : ConsensusState) (b : Block) :
    verify_block O st b = .ok false := by
  unfold verify_block
  by_cases h1 : b.header.height ≠ st.height
  · rw [if_pos h1]
  · rw [if_neg h1, if_pos (calculate_hash_ne_hash_bytes O b)]

/-- C3 (code_bug): `handle_proposal` never stores a proposal: every call
returns an error, whatever the proposal, the state and the crypto oracle.
`verify_proposal` always answers `Ok(false)` because `verify_block` compares
the raw 32-byte digest `header.calculate_hash()` with the 64 ASCII bytes of
the hex string `block.hash()`, which can never be equal; the sender/proposer
test is dead code downstream of that (and would compare the cached proposer
against the engine's own key, not the proposal's sender). -/
theorem handle_proposal_always_rejects (O : Oracle) (now : Int) (selfKey : Bytes)
    (st : ConsensusState) (vs : ValidatorSet) (rs : RoundState) (p : Proposal) :
    ∃ e, handle_proposal O now selfKey st vs rs p = .error e := by
  unfold handle_proposal verify_proposal
  by_cases hs : p.signature.length ≠ 64
  · rw [if_pos hs]
    exact ⟨_, rfl⟩
  · rw [if_neg hs]
    by_cases hv : ¬ O.edVerify p.proposer (proposalMsg O p) p.signature
    · rw [if_pos hv]
      exact ⟨_, rfl⟩
    · rw [if_neg hv, verify_block_always_false]
      exact ⟨_, rfl⟩

theorem commitVoteLoop_all_pass (O : Oracle) (vs : ValidatorSet) (msg : String)
    (votes : List Vote)
    (h : ∀ v ∈ votes, v.signature.length = 64 ∧ O.edVerify v.validator msg v.signature = true) :
    commitVoteLoop O vs msg votes = .ok (some (sumVotePower vs votes)) := by
  induction votes with
  | nil => rfl
  | cons v rest ih =>
    obtain ⟨h1, h2⟩ := h v (by simp)
    have hrest := ih (fun w hw => h w (by simp [hw]))
    unfold commitVoteLoop
    rw [if_neg (by omega), if_neg (by simp [h2]), hrest]
    cases hf : vs.validators.find? (fun w => w.pub_key == v.validator) <;>
      simp [sumVotePower, hf]

theorem commitVoteLoop_fail (O : Oracle) (vs : ValidatorSet) (msg : String)
    (votes : List Vote)
    (h : ¬ ∀ v ∈ votes, v.signature.length = 64 ∧ O.edVerify v.validator msg v.signature = true) :
    commitVoteLoop O vs msg votes = .error (.invalidSignature "Invalid signature length") ∨
    commitVoteLoop O vs msg votes = .ok none := by
  induction votes with
  | nil => exact absurd (by simp) h
  | cons v rest ih =>
    unfold commitVoteLoop
    by_cases h1 : v.signature.length ≠ 64
    · rw [if_pos h1]
      exact .inl rfl
    · rw [if_neg h1]
      by_cases h2 : ¬ O.edVerify v.validator msg v.signature
      · rw [if_pos h2]
        exact .inr rfl
      · rw [if_neg h2]
        have hrest : ¬ ∀ w ∈ rest, w.signature.length = 64 ∧
            O.edVerify w.validator msg w.signature = true := by
          intro hall
          exact h (by
            intro w hw
            rcases List.mem_cons.mp hw with hw | hw
            · subst hw
              exact ⟨by omega, by simpa using h2⟩
            · exact hall w hw)
        rcases ih hrest with he | hn
        · rw [he]
          exact .inl rfl
        · rw [hn]
          exact .inr rfl

theorem verify_commit_true_iff (O : Oracle) (vs : ValidatorSet) (c : Commit) :
    verify_commit O vs c = .ok true ↔
      ((∀ v ∈ c.votes, v.signature.length = 64 ∧
          O.edVerify v.validator (commitMsg c) v.signature = true) ∧
       vs.total_voting_power < sumVotePower vs c.votes * 3) := by
  unfold verify_commit
  by_cases hall : ∀ v ∈ c.votes, v.signature.length = 64 ∧
      O.edVerify v.validator (commitMsg c) v.signature = true
  · rw [commitVoteLoop_all_pass O vs (commitMsg c) c.votes hall]
    simp only [Except.ok.injEq, decide_eq_true_eq]
    constructor
    · intro hth
      exact ⟨hall, (Nat.div_lt_iff_lt_mul (by omega)).mp hth⟩
    · intro ⟨_, hth⟩
      exact (Nat.div_lt_iff_lt_mul (by omega)).mpr hth
  · rcases commitVoteLoop_fail O vs (commitMsg c) c.votes hall with he | hn
    · rw [he]
      simp [hall]
    · rw [hn]
      simp [hall]

theorem verify_commit_error_shape (O : Oracle) (vs : ValidatorSet) (c : Commit) (e : ConsensusError)
    (he : verify_commit O vs c = .error e) : e = .invalidSignature "Invalid signature length" := by
  by_cases hall : ∀ v ∈ c.votes, v.signature.length = 64 ∧
      O.edVerify v.validator (commitMsg c) v.signature = true
  · rw [show verify_commit O vs c =
      .ok (decide (sumVotePower vs c.votes > vs.total_voting_power / 3)) by
        unfold verify_commit
        rw [commitVoteLoop_all_pass O vs (commitMsg c) c.votes hall]] at he
    cases he
  · unfold verify_commit at he
    rcases commitVoteLoop_fail O vs (commitMsg c) c.votes hall with hl | hl <;> rw [hl] at he
    · cases he
      rfl
    · cases he

/-- C5 (corrected): `handle_commit` accepts a commit exactly when every vote
signature is well-formed (64 bytes) and verifies against
`"{height}:{hex(block_hash)}"`, the summed voting power of the votes'
validators exceeds a THIRD of `total_voting_power`, and the commit height
equals the engine height; acceptance stores the commit in
`round_state.last_commit` and proceeds to finalization exactly when a
proposal is present.  On rejection the error is `InvalidCommit` — except
that a vote signature that is not exactly 64 bytes surfaces as an
`InvalidSignature` error instead. -/
theorem handle_commit_accept_iff (O : Oracle) (now : Int) (vs : ValidatorSet)
    (st : ConsensusState) (rs : RoundState) (c : Commit) :
    ((∃ r, handle_commit O now vs st rs c = .ok r) ↔
      ((∀ v ∈ c.votes, v.signature.length = 64 ∧
          O.edVerify v.validator (commitMsg c) v.signature = true) ∧
       vs.total_voting_power < sumVotePower vs c.votes * 3 ∧
       c.height = st.height))
    ∧ (∀ st1 rs1 fin, handle_commit O now vs st rs c = .ok (st1, rs1, fin) →
        rs1.last_commit = some c ∧ fin = rs.proposal.isSome)
    ∧ (∀ e, handle_commit O now vs st rs c = .error e →
        (∃ s, e = .invalidCommit s) ∨ (∃ s, e = .invalidSignature s)) := by
  refine ⟨⟨?_, ?_⟩, ?_, ?_⟩
  · rintro ⟨r, hr⟩
    unfold handle_commit at hr
    rcases hvc : verify_commit O vs c with e | b <;> rw [hvc] at hr
    · cases hr
    · cases b
      · cases hr
      · have hcond := (verify_commit_true_iff O vs c).mp hvc
        by_cases hh : c.height ≠ st.height
        · rw [if_pos hh] at hr
          cases hr
        · push_neg at hh
          exact ⟨hcond.1, hcond.2, hh⟩
  · rintro ⟨hall, hth, hh⟩
    have hv : verify_commit O vs c = .ok true := (verify_commit_true_iff O vs c).mpr ⟨hall, hth⟩
    unfold handle_commit
    rw [hv, if_neg (by omega)]
    cases hp : rs.proposal with
    | none => exact ⟨_, rfl⟩
    | some p => exact ⟨_, rfl⟩
  · intro st1 rs1 fin hr
    unfold handle_commit at hr
    rcases hvc : verify_commit O vs c with e1 | b <;> rw [hvc] at hr
    · cases hr
    · cases b
      · cases hr
      · by_cases hh : c.height ≠ st.height
        · rw [if_pos hh] at hr
          cases hr
        · rw [if_neg hh] at hr
          cases hp : rs.proposal with
          | none =>
            rw [hp] at hr
            cases hr
            exact ⟨rfl, rfl⟩
          | some p =>
            rw [hp] at hr
            cases hr
            refine ⟨?_, rfl⟩
            simp [finalize_block, enter_new_height]
  · intro e hr
    unfold handle_commit at hr
    rcases hvc : verify_commit O vs c with e1 | b <;> rw [hvc] at hr
    · cases hr
      exact .inr ⟨_, verify_commit_error_shape O vs c _ hvc⟩
    · cases b
      · cases hr
        exact .inl ⟨_, rfl⟩
      · by_cases hh : c.height ≠ st.height
        · rw [if_pos hh] at hr
          cases hr
          exact .inl ⟨_, rfl⟩
        · rw [if_neg hh] at hr
          cases hp : rs.proposal with
          | none =>
            rw [hp] at hr
            cases hr
          | some p =>
            rw [hp] at hr
            cases hr

/-- C5 (counterexample): a commit whose single vote carries an empty
signature makes `handle_commit` fail with `InvalidSignature("Invalid
signature length")`, not with the `InvalidCommit` error the claim reserves
for every rejection. -/
theorem handle_commit_malformed_sig_cex :
    handle_commit stubOracle 0 vs1 (initialState vs1) (RoundState.base 0) commitBadSig
      = .error (.invalidSignature "Invalid signature length") ∧
    ∀ s, handle_commit stubOracle 0 vs1 (initialState vs1) (RoundState.base 0) commitBadSig
      ≠ .error (.invalidCommit s) := by
  refine ⟨rfl, ?_⟩
  intro s h
  rw [show handle_commit stubOracle 0 vs1 (initialState vs1) (RoundState.base 0) commitBadSig
      = .error (.invalidSignature "Invalid signature length") from rfl] at h
  simp at h

/-- C8 (corrected): a failing age check, jailed-at-timestamp check,
signature verification or `(type, height)` duplicate check makes
`verify_evidence` return the VALUE `Ok(false)`, and evidence that does not
verify never enters the accepted evidence map when processed; but a
validator ABSENT from the current set is an `InvalidState` error instead,
and a signature that is not 64 bytes is an `InvalidSignature` error. -/
theorem verify_evidence_characterization (O : Oracle) (now : Int) (cfg : ConsensusConfig)
    (vs : ValidatorSet) (pool : EvidencePool) (ev : Evidence)
    (conds : List SlashingCondition) :
    (verify_evidence O now cfg vs pool ev = .ok true ↔
      (¬ now - ev.timestamp > cfg.max_evidence_age ∧
       ∃ v, vs.validators.find? (fun w => w.address == hexEncode ev.validator) = some v ∧
         jailedAt v ev.timestamp = false ∧
         ev.signature.length = 64 ∧
         O.edVerify ev.validator (evidenceMsg ev) ev.signature = true ∧
         (evidenceFor pool (hexEncode ev.validator)).any
           (fun e => e.evidence_type == ev.evidence_type && e.height == ev.height) = false))
    ∧ (now - ev.timestamp > cfg.max_evidence_age →
        verify_evidence O now cfg vs pool ev = .ok false)
    ∧ (∀ v, ¬ now - ev.timestamp > cfg.max_evidence_age →
        vs.validators.find? (fun w => w.address == hexEncode ev.validator) = some v →
        jailedAt v ev.timestamp = true →
        verify_evidence O now cfg vs pool ev = .ok false)
    ∧ (∀ v, ¬ now - ev.timestamp > cfg.max_evidence_age →
        vs.validators.find? (fun w => w.address == hexEncode ev.validator) = some v →
        jailedAt v ev.timestamp = false → ev.signature.length = 64 →
        O.edVerify ev.validator (evidenceMsg ev) ev.signature = false →
        verify_evidence O now cfg vs pool ev = .ok false)
    ∧ (∀ v, ¬ now - ev.timestamp > cfg.max_evidence_age →
        vs.validators.find? (fun w => w.address == hexEncode ev.validator) = some v →
        jailedAt v ev.timestamp = false → ev.signature.length = 64 →
        O.edVerify ev.validator (evidenceMsg ev) ev.signature = true →
        (evidenceFor pool (hexEncode ev.validator)).any
          (fun e => e.evidence_type == ev.evidence_type && e.height == ev.height) = true →
        verify_evidence O now cfg vs pool ev = .ok false)
    ∧ (¬ now - ev.timestamp > cfg.max_evidence_age →
        vs.validators.find? (fun w => w.address == hexEncode ev.validator) = none →
        verify_evidence O now cfg vs pool ev = .error (.invalidState "Validator not found"))
    ∧ (∀ v, ¬ now - ev.timestamp > cfg.max_evidence_age →
        vs.validators.find? (fun w => w.address == hexEncode ev.validator) = some v →
        jailedAt v ev.timestamp = false → ev.signature.length ≠ 64 →
        verify_evidence O now cfg vs pool ev = .error (.invalidSignature "Invalid signature length"))
    ∧ (∀ b, verify_evidence O now cfg vs pool ev = .ok b → b = false →
        (process_evidence O now cfg conds { pool with pending_evidence := [ev] } vs).1.evidence
          = pool.evidence) := by
  refine ⟨?_, ?_, ?_, ?_, ?_, ?_, ?_, ?_⟩
  · unfold verify_evidence
    by_cases hage : now - ev.timestamp > cfg.max_evidence_age
    · simp [hage]
    · rw [if_neg hage]
      cases hfind : vs.validators.find? (fun w => w.address == hexEncode ev.validator) with
      | none => simp [hfind]
      | some v =>
        by_cases hjail : jailedAt v ev.timestamp
        · simp [hage, hjail]
        · simp only [Bool.not_eq_true] at hjail
          by_cases hsig : ev.signature.length ≠ 64
          · simp [hage, hjail, hsig]
          · push_neg at hsig
            by_cases hver : O.edVerify ev.validator (evidenceMsg ev) ev.signature
            · by_cases hdup : (evidenceFor pool (hexEncode ev.validator)).any
                  (fun e => e.evidence_type == ev.evidence_type && e.height == ev.height)
              · simp [hage, hjail, hsig, hver, hdup]
              · simp only [Bool.not_eq_true] at hdup
                simp [hage, hjail, hsig, hver, hdup]
            · simp only [Bool.not_eq_true] at hver
              simp [hage, hjail, hsig, hver]
  · intro hage
    unfold verify_evidence
    rw [if_pos hage]
  · intro v hage hfind hjail
    unfold verify_evidence
    rw [if_neg hage, hfind]
    simp [hjail]
  · intro v hage hfind hjail hsig hver
    unfold verify_evidence
    rw [if_neg hage, hfind]
    simp [hjail, hsig, hver]
  · intro v hage hfind hjail hsig hver hdup
    unfold verify_evidence
    rw [if_neg hage, hfind]
    simp [hjail, hsig, hver, hdup]
  · intro hage hfind
    unfold verify_evidence
    rw [if_neg hage, hfind]
  · intro v hage hfind hjail hsig
    unfold verify_evidence
    rw [if_neg hage, hfind]
    simp [hjail, hsig]
  · intro b hb hbf
    subst hbf
    have hb2 : verify_evidence O now cfg vs { pool with pending_evidence := [] } ev
        = .ok false := hb
    unfold process_evidence processLoop
    rw [hb2]
    rfl

/-- C8 (counterexample): fresh evidence naming a validator that is not in
the (empty) validator set makes `verify_evidence` return an
`InvalidState("Validator not found")` ERROR, where the claim requires the
value `false`. -/
theorem verify_evidence_absent_validator_cex :
    verify_evidence stubOracle 0 ConsensusConfig.default vsEmpty poolEmpty evOrphan
      = .error (.invalidState "Validator not found") ∧
    verify_evidence stubOracle 0 ConsensusConfig.default vsEmpty poolEmpty evOrphan
      ≠ .ok false :=
  ⟨rfl, by
    rw [show verify_evidence stubOracle 0 ConsensusConfig.default vsEmpty poolEmpty evOrphan
        = .error (.invalidState "Validator not found") from rfl]
    simp⟩

theorem update_proposer_priority_preserves (O : Oracle) (w : ValidatorSet)
    (h : w.total_voting_power = (w.validators.map (fun v => v.voting_power)).sum) :
    (update_proposer_priority O w).1.total_voting_power =
      ((update_proposer_priority O w).1.validators.map (fun v => v.voting_power)).sum := by
  unfold update_proposer_priority
  by_cases h0 : w.total_voting_power == 0
  · rw [if_pos h0]
    exact h
  · rw [if_neg h0]
    simpa [List.map_map, Function.comp] using h

/-- C9 (confirmed): the voting-power integrity invariant
`total_voting_power = sum of member voting powers` is established by
`update_validator_set` for every update list (it recomputes the total after
folding the updates, and the proposer-priority rewrite touches no power),
and is preserved by `apply_slashing_conditions` for every piece of evidence
(it either recomputes the total after slashing or leaves the set intact). -/
theorem validator_power_integrity (O : Oracle) (vs vsS : ValidatorSet)
    (ups : List ValidatorUpdate) (now : Int) (conds : List SlashingCondition) (ev : Evidence)
    (h2 : vsS.total_voting_power = (vsS.validators.map (fun v => v.voting_power)).sum) :
    ((update_validator_set O vs ups).1.total_voting_power =
      ((update_validator_set O vs ups).1.validators.map (fun v => v.voting_power)).sum) ∧
    ((apply_slashing_conditions now conds vsS ev).total_voting_power =
      ((apply_slashing_conditions now conds vsS ev).validators.map (fun v => v.voting_power)).sum) := by
  constructor
  · exact update_proposer_priority_preserves O _ rfl
  · unfold apply_slashing_conditions
    by_cases hany : vsS.validators.any (fun v => v.address == hexEncode ev.validator)
    · rw [if_pos hany]
      cases hfind : conds.find? (fun c => c.evidence_type == ev.evidence_type) with
      | none => exact h2
      | some c => rfl
    · rw [if_neg hany]
      exact h2

/-- C9 (witness): the invariant statement applied at a concrete two-validator
set with an empty update list and the single-validator set with the default
slashing conditions, whose integrity hypothesis holds by computation. -/
theorem validator_power_integrity_witness :
    (vs1.total_voting_power = (vs1.validators.map (fun v => v.voting_power)).sum) ∧
    (((update_validator_set stubOracle vsAB []).1.total_voting_power =
      ((update_validator_set stubOracle vsAB []).1.validators.map (fun v => v.voting_power)).sum) ∧
    ((apply_slashing_conditions 0 defaultSlashingConditions vs1 evOrphan).total_voting_power =
      ((apply_slashing_conditions 0 defaultSlashingConditions vs1 evOrphan).validators.map
        (fun v => v.voting_power)).sum)) :=
  ⟨rfl, validator_power_integrity stubOracle vsAB vs1 [] 0 defaultSlashingConditions evOrphan rfl⟩

end Artha

namespace Svbft

theorem voteTimes_threshold (c : SVBFTConsensus) (v : Vote) (k : Nat) :
    (voteTimes c v k).threshold = c.threshold := by
  induction k with
  | zero => rfl
  | succ k ih =>
    show ((voteTimes c v k).add_vote v).1.threshold = c.threshold
    unfold SVBFTConsensus.add_vote
    dsimp only
    split <;> exact ih

theorem voteTimes_state (vals : List String) (t : Nat) (h val : String) (ht : 1 ≤ t) :
    ∀ k, k ≤ t →
      (voteTimes (SVBFTConsensus.new vals t) ⟨h, val⟩ k).state =
        { votes := if k = 0 then [] else [(h, List.replicate k ⟨h, val⟩)],
          finalized_blocks := if k = t then [h] else [] } := by
  intro k
  induction k with
  | zero =>
    intro _
    have ht0 : ¬ (0 : Nat) = t := by omega
    simp [voteTimes, SVBFTConsensus.new, ht0]
  | succ k ih =>
    intro hk
    have hst := ih (by omega)
    have hthr : (voteTimes (SVBFTConsensus.new vals t) ⟨h, val⟩ k).threshold = t :=
      voteTimes_threshold _ _ k
    show ((voteTimes (SVBFTConsensus.new vals t) ⟨h, val⟩ k).add_vote ⟨h, val⟩).1.state = _
    unfold SVBFTConsensus.add_vote
    rw [hst, hthr]
    have hkt : ¬ k = t := by omega
    by_cases hk0 : k = 0
    · subst hk0
      simp only [if_pos rfl, hkt, if_neg hkt]
      by_cases ht1 : 1 ≥ t
      · have : t = 1 := by omega
        subst this
        simp [entryPush, votesFor]
      · simp [entryPush, votesFor, ht1]
        omega
    · simp only [if_neg hk0, if_neg hkt]
      have hpush : entryPush [(h, List.replicate k (⟨h, val⟩ : Vote))] h ⟨h, val⟩
          = [(h, List.replicate (k + 1) (⟨h, val⟩ : Vote))] := by
        simp [entryPush, List.replicate_succ']
      rw [hpush]
      have hcount : (votesFor [(h, List.replicate (k + 1) (⟨h, val⟩ : Vote))] h).length
          = k + 1 := by
        simp [votesFor]
      by_cases hfin : k + 1 = t
      · rw [if_pos (by rw [hcount]; exact ⟨by omega, by simp⟩)]
        have ht0 : ¬ t = 0 := by omega
        simp [hfin, ht0]
      · rw [if_neg (by rw [hcount]; rintro ⟨hge, -⟩; omega)]
        simp [hfin, hk0]

/-- C10 (confirmed): `SVBFTConsensus::add_vote` does not deduplicate votes
by validator: for every threshold `t ≥ 1`, submitting `t` copies of the
very same vote (same validator id, same block hash) to a fresh instance
finalizes that block; and a hash once in `finalized_blocks` stays finalized
across every further `add_vote`. -/
theorem add_vote_no_dedup_and_finality_monotone (vals : List String) (t : Nat)
    (h val : String) (c : SVBFTConsensus) (bh : String) (v : Vote)
    (ht : 1 ≤ t) (hf : c.is_finalized bh = true) :
    (voteTimes (SVBFTConsensus.new vals t) ⟨h, val⟩ t).is_finalized h = true ∧
    ((c.add_vote v).1.is_finalized bh = true) := by
  constructor
  · have hst := voteTimes_state vals t h val ht t le_rfl
    unfold SVBFTConsensus.is_finalized
    rw [hst]
    simp
  · unfold SVBFTConsensus.is_finalized at hf ⊢
    unfold SVBFTConsensus.add_vote
    dsimp only
    split
    · simp [List.any_append, hf]
    · exact hf

/-- C10 (witness): threshold 2, two copies of the same vote by validator
"v" finalize block "h"; and a further unrelated vote leaves the already
finalized block "b" of `cFinal` finalized. -/
theorem add_vote_no_dedup_witness :
    (voteTimes (SVBFTConsensus.new ["v"] 2) ⟨"h", "v"⟩ 2).is_finalized "h" = true ∧
    ((cFinal.add_vote ⟨"x", "w"⟩).1.is_finalized "b" = true) :=
  add_vote_no_dedup_and_finality_monotone ["v"] 2 "h" "v" cFinal "b" ⟨"x", "w"⟩
    (by omega) rfl

end Svbft
